import Mathlib

/-!
Shallow embedding of the Aetheria block edge-matching engine
(`BlockEdgeMatcher` and `WaveFunctionCollapse`).

Modelling conventions:
* JavaScript strings are embedded as `List Char`.
* A block's `heights` field is a 9-digit string in the source; since the code
  immediately maps every character through `Number`, the field is embedded as
  the corresponding `List Nat` of digit values (a grid string such as
  `"123456789"` becomes `[1,2,3,4,5,6,7,8,9]`).
* JavaScript `Math.floor(angle / 90)` is `Int.fdiv angle 90` and the
  JavaScript remainder operator `%` (sign of the dividend) is `Int.tmod`.
* A JavaScript `Map` is embedded as a function into `Option`; `Map.set` is
  `Function.update` and `Map.get` is application.
* `parseInt` can produce `NaN`; a fallible numeric parse is embedded as an
  `Option Int`, with `none` standing for `NaN`.
-/

/-- The four cardinal directions, the string-literal union
`'north' | 'south' | 'east' | 'west'` of the source. -/
inductive Direction : Type
  | north
  | south
  | east
  | west
deriving DecidableEq, Repr

/-- The `rotation` field of `BlockConfiguration`: an axis (a string in the
source: `rotateEdges` and `getRotatedBlockId` accept arbitrary strings) and
an angle. -/
structure Rotation where
  axis : List Char
  angle : Int
deriving DecidableEq, Repr

/-- `BlockConfiguration`: an id, a height grid (embedded as the digit list of
the 9-digit string) and an optional rotation. -/
structure BlockConfiguration where
  id : List Char
  heights : List Nat
  rotation : Option Rotation
deriving DecidableEq, Repr

/-- `EdgePattern`: one edge signature per direction. -/
structure EdgePattern where
  north : List Nat
  east : List Nat
  south : List Nat
  west : List Nat
deriving DecidableEq, Repr

/-- `BlockEdgeMatcher.extractEdges`: edge signatures of a 9-cell height grid
(indices row-major).  Out-of-range indices (grids shorter than 9) default to
0 to keep the function total; every theorem about grids assumes length 9. -/
def extractEdges (heights : List Nat) : EdgePattern :=
  let h := heights
  { north := [h.getD 0 0, h.getD 1 0, h.getD 2 0]
    east := [h.getD 2 0, h.getD 5 0, h.getD 8 0]
    south := [h.getD 8 0, h.getD 7 0, h.getD 6 0]
    west := [h.getD 6 0, h.getD 3 0, h.getD 0 0] }

/-- One elementary 90° Z-axis step of `rotateEdges` (the body of the
`axis === 'z'` loop). -/
def stepZ (e : EdgePattern) : EdgePattern :=
  { north := e.west.reverse
    east := e.north
    south := e.east.reverse
    west := e.south }

/-- One elementary 90° Y-axis step of `rotateEdges` (the body of the
`axis === 'y'` loop). -/
def stepY (e : EdgePattern) : EdgePattern :=
  { north := e.south.reverse
    east := e.east.reverse
    south := e.north.reverse
    west := e.west.reverse }

/-- One elementary 90° X-axis step of `rotateEdges` (the body of the
`axis === 'x'` loop). -/
def stepX (e : EdgePattern) : EdgePattern :=
  { north := e.north.reverse
    east := e.west.reverse
    south := e.south.reverse
    west := e.east.reverse }

/-- `const rotations = Math.floor(angle / 90) % 4` followed by the loop bound
`i < rotations`: a negative count runs the loop zero times, hence `Int.toNat`.
JavaScript `%` keeps the sign of the dividend, which is `Int.tmod`. -/
def rotationSteps (angle : Int) : Nat :=
  (Int.tmod (Int.fdiv angle 90) 4).toNat

/-- `for (let i = 0; i < n; i++) { e = f(e) }`. -/
def applyN (f : EdgePattern → EdgePattern) : Nat → EdgePattern → EdgePattern
  | 0, e => e
  | n + 1, e => applyN f n (f e)

/-- `BlockEdgeMatcher.rotateEdges`: dispatch on the axis string and run the
per-axis elementary step `rotations` times; an unrecognized axis falls
through all branches and the copied edges are returned unchanged. -/
def rotateEdges (edges : EdgePattern) (axis : List Char) (angle : Int) :
    EdgePattern :=
  let rotations := rotationSteps angle
  if axis = ['z'] then applyN stepZ rotations edges
  else if axis = ['y'] then applyN stepY rotations edges
  else if axis = ['x'] then applyN stepX rotations edges
  else edges

/-- `BlockEdgeMatcher.getEffectiveEdges`. -/
def getEffectiveEdges (block : BlockConfiguration) : EdgePattern :=
  let baseEdges := extractEdges block.heights
  match block.rotation with
  | none => baseEdges
  | some r => if r.angle = 0 then baseEdges else rotateEdges baseEdges r.axis r.angle

/-- The final comparison of `canBeAdjacent`:
`edgeA.length === edgeB.length && edgeA.every((h, i) => h === edgeB[i])`
(the `every` is over index pairs, expressed with `zip` under the length
guard). -/
def edgesMatch (edgeA edgeB : List Nat) : Bool :=
  edgeA.length == edgeB.length &&
    (List.zip edgeA edgeB).all fun p => p.1 == p.2

/-- `BlockEdgeMatcher.canBeAdjacent`: select A's edge facing `direction` and
B's edge on the opposite side per the `edgeMatches` table, then compare. -/
def canBeAdjacent (blockA blockB : BlockConfiguration)
    (direction : Direction) : Bool :=
  let edgesA := getEffectiveEdges blockA
  let edgesB := getEffectiveEdges blockB
  let pair : List Nat × List Nat :=
    match direction with
    | .north => (edgesA.north, edgesB.south)
    | .south => (edgesA.south, edgesB.north)
    | .east => (edgesA.east, edgesB.west)
    | .west => (edgesA.west, edgesB.east)
  edgesMatch pair.1 pair.2

theorem canBeAdjacent_north_eq (blockA blockB : BlockConfiguration) :
    canBeAdjacent blockA blockB .north =
      edgesMatch (getEffectiveEdges blockA).north (getEffectiveEdges blockB).south := rfl

theorem canBeAdjacent_south_eq (blockA blockB : BlockConfiguration) :
    canBeAdjacent blockA blockB .south =
      edgesMatch (getEffectiveEdges blockA).south (getEffectiveEdges blockB).north := rfl

theorem canBeAdjacent_east_eq (blockA blockB : BlockConfiguration) :
    canBeAdjacent blockA blockB .east =
      edgesMatch (getEffectiveEdges blockA).east (getEffectiveEdges blockB).west := rfl

theorem canBeAdjacent_west_eq (blockA blockB : BlockConfiguration) :
    canBeAdjacent blockA blockB .west =
      edgesMatch (getEffectiveEdges blockA).west (getEffectiveEdges blockB).east := rfl

theorem edgesMatch_iff (a b : List Nat) : edgesMatch a b = true ↔ a = b := by
  induction a generalizing b with
  | nil => cases b <;> simp [edgesMatch]
  | cons x xs ih =>
    cases b with
    | nil => simp [edgesMatch]
    | cons y ys =>
      have h := ih ys
      simp only [edgesMatch, List.zip_cons_cons, List.all_cons, List.length_cons,
        beq_iff_eq, Bool.and_eq_true, Nat.add_right_cancel_iff] at h ⊢
      constructor
      · rintro ⟨hl, hxy, hall⟩
        exact List.cons_eq_cons.mpr ⟨hxy, h.mp ⟨hl, hall⟩⟩
      · rintro hc
        rcases List.cons_eq_cons.mp hc with ⟨hxy, htl⟩
        rcases h.mpr htl with ⟨hl, hall⟩
        exact ⟨hl, hxy, hall⟩

theorem edgesMatch_comm (a b : List Nat) : edgesMatch a b = edgesMatch b a := by
  by_cases h : a = b
  · subst h; rfl
  · have h1 : edgesMatch a b = false := by
      cases hx : edgesMatch a b
      · rfl
      · exact absurd ((edgesMatch_iff a b).mp hx) h
    have h2 : edgesMatch b a = false := by
      cases hx : edgesMatch b a
      · rfl
      · exact absurd ((edgesMatch_iff b a).mp hx).symm h
    rw [h1, h2]

theorem rotationSteps_90 : rotationSteps 90 = 1 := by decide

theorem rotationSteps_180 : rotationSteps 180 = 2 := by decide

theorem rotationSteps_270 : rotationSteps 270 = 3 := by decide

theorem rotateEdges_z_eq (e : EdgePattern) (angle : Int) :
    rotateEdges e ['z'] angle = applyN stepZ (rotationSteps angle) e := rfl

theorem rotateEdges_y_eq (e : EdgePattern) (angle : Int) :
    rotateEdges e ['y'] angle = applyN stepY (rotationSteps angle) e := rfl

theorem rotateEdges_x_eq (e : EdgePattern) (angle : Int) :
    rotateEdges e ['x'] angle = applyN stepX (rotationSteps angle) e := rfl

theorem stepZ_four (e : EdgePattern) : stepZ (stepZ (stepZ (stepZ e))) = e := by
  cases e
  simp [stepZ]

theorem stepY_two (e : EdgePattern) : stepY (stepY e) = e := by
  cases e
  simp [stepY]

theorem stepX_two (e : EdgePattern) : stepX (stepX e) = e := by
  cases e
  simp [stepX]

theorem tmod_four_nonpos_of_neg (q : Int) (h : q < 0) : Int.tmod q 4 ≤ 0 := by
  cases q with
  | ofNat m => simp [Int.ofNat_eq_coe] at h; omega
  | negSucc m =>
    have e : Int.tmod (Int.negSucc m) 4 = -(((m + 1) % 4 : Nat) : Int) := rfl
    omega

theorem rotationSteps_of_neg (angle : Int) (h : angle < 0) :
    rotationSteps angle = 0 := by
  have hq : Int.fdiv angle 90 < 0 := by
    rw [Int.fdiv_eq_ediv _ (by norm_num)]
    omega
  have := tmod_four_nonpos_of_neg _ hq
  unfold rotationSteps
  omega

/-- C2: for every height grid of exactly 9 values laid out row-major,
`extractEdges` returns north = top row left→right, east = right column
top→bottom, south = bottom row right→left, west = left column bottom→top;
in particular `extractEdges "123456789"` gives north = [1,2,3],
east = [3,6,9], south = [9,8,7], west = [7,4,1]. -/
theorem extractEdges_c2 :
    (∀ (h : List Nat) (hl : h.length = 9),
      extractEdges h =
        { north := [h.get ⟨0, by omega⟩, h.get ⟨1, by omega⟩, h.get ⟨2, by omega⟩]
          east := [h.get ⟨2, by omega⟩, h.get ⟨5, by omega⟩, h.get ⟨8, by omega⟩]
          south := [h.get ⟨8, by omega⟩, h.get ⟨7, by omega⟩, h.get ⟨6, by omega⟩]
          west := [h.get ⟨6, by omega⟩, h.get ⟨3, by omega⟩, h.get ⟨0, by omega⟩] }) ∧
    extractEdges [1, 2, 3, 4, 5, 6, 7, 8, 9] =
      { north := [1, 2, 3], east := [3, 6, 9], south := [9, 8, 7], west := [7, 4, 1] } := by
  constructor
  · intro h hl
    have g : ∀ (i : Nat) (hi : i < h.length), h.getD i 0 = h.get ⟨i, hi⟩ :=
      fun i hi => List.getD_eq_get h 0 hi
    simp only [extractEdges]
    rw [g 0 (by omega), g 1 (by omega), g 2 (by omega), g 3 (by omega),
      g 5 (by omega), g 6 (by omega), g 7 (by omega), g 8 (by omega)]
  · decide

/-- C2 witness: the universal part applied to the concrete grid 987654321. -/
theorem extractEdges_c2_witness :
    extractEdges [9, 8, 7, 6, 5, 4, 3, 2, 1] =
      { north := [9, 8, 7], east := [7, 4, 1], south := [1, 2, 3], west := [3, 6, 9] } :=
  (extractEdges_c2.1 [9, 8, 7, 6, 5, 4, 3, 2, 1] (by decide)).trans (by decide)

/-- C1: `canBeAdjacent(A, B, d)` returns true iff A's effective edge on side
d and B's effective edge on the opposite side (north↔south, east↔west) have
equal length and every corresponding pair of height values is equal; in
particular for blockA with grid 123456789 and blockB with grid 999999999
(both unrotated), `canBeAdjacent(blockA, blockB, east)` is false. -/
theorem canBeAdjacent_c1 :
    (∀ blockA blockB : BlockConfiguration,
      (canBeAdjacent blockA blockB .north = true ↔
        ((getEffectiveEdges blockA).north.length =
            (getEffectiveEdges blockB).south.length ∧
          ∀ (i : Nat) (h1 : i < (getEffectiveEdges blockA).north.length)
            (h2 : i < (getEffectiveEdges blockB).south.length),
            (getEffectiveEdges blockA).north.get ⟨i, h1⟩ =
              (getEffectiveEdges blockB).south.get ⟨i, h2⟩)) ∧
      (canBeAdjacent blockA blockB .south = true ↔
        ((getEffectiveEdges blockA).south.length =
            (getEffectiveEdges blockB).north.length ∧
          ∀ (i : Nat) (h1 : i < (getEffectiveEdges blockA).south.length)
            (h2 : i < (getEffectiveEdges blockB).north.length),
            (getEffectiveEdges blockA).south.get ⟨i, h1⟩ =
              (getEffectiveEdges blockB).north.get ⟨i, h2⟩)) ∧
      (canBeAdjacent blockA blockB .east = true ↔
        ((getEffectiveEdges blockA).east.length =
            (getEffectiveEdges blockB).west.length ∧
          ∀ (i : Nat) (h1 : i < (getEffectiveEdges blockA).east.length)
            (h2 : i < (getEffectiveEdges blockB).west.length),
            (getEffectiveEdges blockA).east.get ⟨i, h1⟩ =
              (getEffectiveEdges blockB).west.get ⟨i, h2⟩)) ∧
      (canBeAdjacent blockA blockB .west = true ↔
        ((getEffectiveEdges blockA).west.length =
            (getEffectiveEdges blockB).east.length ∧
          ∀ (i : Nat) (h1 : i < (getEffectiveEdges blockA).west.length)
            (h2 : i < (getEffectiveEdges blockB).east.length),
            (getEffectiveEdges blockA).west.get ⟨i, h1⟩ =
              (getEffectiveEdges blockB).east.get ⟨i, h2⟩))) ∧
    canBeAdjacent ⟨['a'], [1, 2, 3, 4, 5, 6, 7, 8, 9], none⟩
      ⟨['b'], [9, 9, 9, 9, 9, 9, 9, 9, 9], none⟩ .east = false := by
  refine ⟨fun blockA blockB => ⟨?_, ?_, ?_, ?_⟩, by decide⟩
  · rw [canBeAdjacent_north_eq, edgesMatch_iff]
    exact List.ext_get_iff
  · rw [canBeAdjacent_south_eq, edgesMatch_iff]
    exact List.ext_get_iff
  · rw [canBeAdjacent_east_eq, edgesMatch_iff]
    exact List.ext_get_iff
  · rw [canBeAdjacent_west_eq, edgesMatch_iff]
    exact List.ext_get_iff

/-- C7: adjacency checking is symmetric under swapping the blocks and taking
the opposite direction, for each of the four direction/opposite pairs. -/
theorem canBeAdjacent_c7 (blockA blockB : BlockConfiguration) :
    canBeAdjacent blockA blockB .north = canBeAdjacent blockB blockA .south ∧
    canBeAdjacent blockA blockB .south = canBeAdjacent blockB blockA .north ∧
    canBeAdjacent blockA blockB .east = canBeAdjacent blockB blockA .west ∧
    canBeAdjacent blockA blockB .west = canBeAdjacent blockB blockA .east := by
  refine ⟨?_, ?_, ?_, ?_⟩
  · rw [canBeAdjacent_north_eq, canBeAdjacent_south_eq]
    exact edgesMatch_comm _ _
  · rw [canBeAdjacent_south_eq, canBeAdjacent_north_eq]
    exact edgesMatch_comm _ _
  · rw [canBeAdjacent_east_eq, canBeAdjacent_west_eq]
    exact edgesMatch_comm _ _
  · rw [canBeAdjacent_west_eq, canBeAdjacent_east_eq]
    exact edgesMatch_comm _ _

/-- C4: a 90° rotation followed by the complementary 270° rotation about the
same axis returns the original edge set, for each axis x, y, z. -/
theorem rotateEdges_c4 (e : EdgePattern) :
    rotateEdges (rotateEdges e ['x'] 90) ['x'] 270 = e ∧
    rotateEdges (rotateEdges e ['y'] 90) ['y'] 270 = e ∧
    rotateEdges (rotateEdges e ['z'] 90) ['z'] 270 = e := by
  refine ⟨?_, ?_, ?_⟩
  · rw [rotateEdges_x_eq, rotateEdges_x_eq, rotationSteps_90, rotationSteps_270]
    show stepX (stepX (stepX (stepX e))) = e
    rw [stepX_two, stepX_two]
  · rw [rotateEdges_y_eq, rotateEdges_y_eq, rotationSteps_90, rotationSteps_270]
    show stepY (stepY (stepY (stepY e))) = e
    rw [stepY_two, stepY_two]
  · rw [rotateEdges_z_eq, rotateEdges_z_eq, rotationSteps_90, rotationSteps_270]
    show stepZ (stepZ (stepZ (stepZ e))) = e
    exact stepZ_four e

/-- C10: the X and Y elementary steps are involutions: a 180° rotation about
X or Y is the identity on edge patterns, and a 90° rotation about X or Y
equals the corresponding 270° rotation. -/
theorem rotateEdges_c10 (e : EdgePattern) :
    rotateEdges e ['x'] 180 = e ∧
    rotateEdges e ['y'] 180 = e ∧
    rotateEdges e ['x'] 90 = rotateEdges e ['x'] 270 ∧
    rotateEdges e ['y'] 90 = rotateEdges e ['y'] 270 := by
  refine ⟨?_, ?_, ?_, ?_⟩
  · rw [rotateEdges_x_eq, rotationSteps_180]
    exact stepX_two e
  · rw [rotateEdges_y_eq, rotationSteps_180]
    exact stepY_two e
  · rw [rotateEdges_x_eq, rotateEdges_x_eq, rotationSteps_90, rotationSteps_270]
    show stepX e = stepX (stepX (stepX e))
    rw [stepX_two]
  · rw [rotateEdges_y_eq, rotateEdges_y_eq, rotationSteps_90, rotationSteps_270]
    show stepY e = stepY (stepY (stepY e))
    rw [stepY_two]

/-- C5 counterexample: the claim asserts `rotateEdges(edges, axis, -90)`
equals `rotateEdges(edges, axis, 270)`, but JavaScript `%` keeps the sign of
the dividend, so `Math.floor(-90 / 90) % 4 = -1` and the rotation loop runs
zero times: at the grid 123456789 and axis z the two results differ. -/
theorem rotateEdges_c5_counterexample :
    rotateEdges (extractEdges [1, 2, 3, 4, 5, 6, 7, 8, 9]) ['z'] (-90) ≠
      rotateEdges (extractEdges [1, 2, 3, 4, 5, 6, 7, 8, 9]) ['z'] 270 := by
  decide

/-- C5 amended: the normalization `Math.floor(angle / 90) % 4` yields a step
count in {0,1,2,3} only for nonnegative angles: for every nonnegative
multiple `90 * k` the result equals the rotation by the normalized angle
`90 * (k % 4)`, while for every negative angle the step count is
nonpositive, the rotation loop runs zero times, and the edges are returned
unchanged (so `rotateEdges(edges, axis, -90)` equals `edges`). -/
theorem rotateEdges_c5_amended (e : EdgePattern) (axis : List Char) :
    (∀ k : Nat, rotateEdges e axis (90 * (k : Int)) =
      rotateEdges e axis (90 * ((k % 4 : Nat) : Int))) ∧
    ∀ angle : Int, angle < 0 → rotateEdges e axis angle = e := by
  constructor
  · intro k
    have hsteps : ∀ m : Nat, rotationSteps (90 * (m : Int)) = m % 4 := by
      intro m
      have h1 : Int.fdiv (90 * (m : Int)) 90 = (90 * (m : Int)) / 90 :=
        Int.fdiv_eq_ediv _ (by norm_num)
      have h90 : (90 * (m : Int)) / 90 = (m : Int) :=
        Int.mul_ediv_cancel_left _ (by norm_num)
      have h2 : Int.tmod ((m : Int)) 4 = (m : Int) % 4 :=
        Int.tmod_eq_emod (by positivity) (by norm_num)
      unfold rotationSteps
      rw [h1, h90, h2]
      omega
    have hk : rotationSteps (90 * (k : Int)) = k % 4 := hsteps k
    have hk4 : rotationSteps (90 * ((k % 4 : Nat) : Int)) = k % 4 := by
      rw [hsteps (k % 4)]
      omega
    simp only [rotateEdges, hk, hk4]
  · intro angle hneg
    have hz : rotationSteps angle = rotationSteps angle := rfl
    rw [show rotateEdges e axis angle =
        (if axis = ['z'] then applyN stepZ (rotationSteps angle) e
         else if axis = ['y'] then applyN stepY (rotationSteps angle) e
         else if axis = ['x'] then applyN stepX (rotationSteps angle) e
         else e) from rfl,
      rotationSteps_of_neg angle hneg]
    split_ifs <;> rfl

/-- C5 amended witness: at the concrete grid 123456789, axis z, the positive
part at k = 5 and the negative part at angle -90. -/
theorem rotateEdges_c5_amended_witness :
    rotateEdges (extractEdges [1, 2, 3, 4, 5, 6, 7, 8, 9]) ['z'] (90 * ((5 : Nat) : Int)) =
      rotateEdges (extractEdges [1, 2, 3, 4, 5, 6, 7, 8, 9]) ['z'] (90 * (((5 : Nat) % 4 : Nat) : Int)) ∧
    rotateEdges (extractEdges [1, 2, 3, 4, 5, 6, 7, 8, 9]) ['z'] (-90) =
      extractEdges [1, 2, 3, 4, 5, 6, 7, 8, 9] :=
  ⟨(rotateEdges_c5_amended (extractEdges [1, 2, 3, 4, 5, 6, 7, 8, 9]) ['z']).1 5,
   (rotateEdges_c5_amended (extractEdges [1, 2, 3, 4, 5, 6, 7, 8, 9]) ['z']).2 (-90) (by decide)⟩

/-- C6 counterexample: the claim asserts a call with an unrecognized axis
fails with an InvalidAxisError rather than silently returning the unrotated
edges; the code has no error path at all — with axis "w" and angle 90 it
silently returns the unrotated edges. -/
theorem rotateEdges_c6_counterexample :
    rotateEdges (extractEdges [1, 2, 3, 4, 5, 6, 7, 8, 9]) ['w'] 90 =
      extractEdges [1, 2, 3, 4, 5, 6, 7, 8, 9] := by
  decide

/-- C6 amended: calling `rotateEdges` with an axis other than x, y, z does
not fail: it silently returns the edges unchanged, for every angle. -/
theorem rotateEdges_c6_amended (e : EdgePattern) (axis : List Char)
    (angle : Int) (hx : axis ≠ ['x']) (hy : axis ≠ ['y']) (hz : axis ≠ ['z']) :
    rotateEdges e axis angle = e := by
  simp [rotateEdges, hx, hy, hz]

/-- C6 amended witness: axis "q" at angle 180 on the uniform-5 grid. -/
theorem rotateEdges_c6_amended_witness :
    rotateEdges (extractEdges [5, 5, 5, 5, 5, 5, 5, 5, 5]) ['q'] 180 =
      extractEdges [5, 5, 5, 5, 5, 5, 5, 5, 5] :=
  rotateEdges_c6_amended (extractEdges [5, 5, 5, 5, 5, 5, 5, 5, 5]) ['q'] 180
    (by decide) (by decide) (by decide)

/-- JavaScript number-to-string for a natural number (the digits of `n` in
base 10), used by the template literal in `getRotatedBlockId`. -/
def natChars (n : Nat) : List Char :=
  if _h : n < 10 then [Char.ofNat (48 + n)]
  else natChars (n / 10) ++ [Char.ofNat (48 + n % 10)]
decreasing_by exact Nat.div_lt_self (by omega) (by omega)

/-- JavaScript number-to-string for an integer. -/
def intChars (n : Int) : List Char :=
  if n < 0 then '-' :: natChars n.natAbs else natChars n.toNat

/-- `BlockEdgeMatcher.getRotatedBlockId`: bare id when unrotated or
zero-angle, else `` `${baseId}_${rotation.axis}${rotation.angle}` ``. -/
def getRotatedBlockId (baseId : List Char) (rotation : Option Rotation) :
    List Char :=
  match rotation with
  | none => baseId
  | some r =>
    if r.angle = 0 then baseId else baseId ++ '_' :: (r.axis ++ intChars r.angle)

/-- JavaScript `String.prototype.split` with a single-character separator. -/
def splitChar (sep : Char) : List Char → List (List Char)
  | [] => [[]]
  | c :: cs =>
    if c = sep then [] :: splitChar sep cs
    else
      match splitChar sep cs with
      | [] => [[c]]
      | p :: ps => (c :: p) :: ps

/-- Decimal digit value of a character, `none` for a non-digit. -/
def digitVal (c : Char) : Option Nat :=
  if '0' ≤ c ∧ c ≤ '9' then some (c.toNat - 48) else none

/-- The digit-consuming loop of `parseInt`: accumulate digits, stop at the
first non-digit. -/
def digitsLoop (acc : Nat) : List Char → Nat
  | [] => acc
  | c :: cs =>
    match digitVal c with
    | some d => digitsLoop (acc * 10 + d) cs
    | none => acc

/-- Longest digit prefix of a string as a number; `none` when the string has
no leading digit. -/
def parseDigits : List Char → Option Nat
  | [] => none
  | c :: cs =>
    match digitVal c with
    | some d => some (digitsLoop d cs)
    | none => none

/-- JavaScript `parseInt` on the strings this program produces: an optional
sign followed by digits; `none` models `NaN`.  (The whitespace-skipping of
`parseInt` never triggers here and is elided.) -/
def parseIntJS : List Char → Option Int
  | [] => none
  | c :: rest =>
    if c = '-' then (parseDigits rest).map fun n : Nat => -(n : Int)
    else if c = '+' then (parseDigits rest).map fun n : Nat => (n : Int)
    else (parseDigits (c :: rest)).map fun n : Nat => (n : Int)

/-- The rotation component returned by `parseRotatedBlockId`: the axis is
`rotationPart.charAt(0)` (a string of at most one character) and the angle
is the `parseInt` result, `none` modelling `NaN`. -/
structure ParsedRotation where
  axis : List Char
  angle : Option Int
deriving DecidableEq, Repr

/-- The record returned by `parseRotatedBlockId`. -/
structure ParsedBlockId where
  baseId : List Char
  rotation : Option ParsedRotation
deriving DecidableEq, Repr

/-- `BlockEdgeMatcher.parseRotatedBlockId`: split on the underscore; one part
means a bare id; otherwise the second part carries axis and angle.  (`split`
never returns an empty array, so the `[]` case is unreachable.) -/
def parseRotatedBlockId (rotatedId : List Char) : ParsedBlockId :=
  let parts := splitChar '_' rotatedId
  match parts with
  | [] => { baseId := [], rotation := none }
  | [p0] => { baseId := p0, rotation := none }
  | p0 :: p1 :: _ =>
    { baseId := p0
      rotation := some { axis := p1.take 1, angle := parseIntJS (p1.drop 1) } }

theorem splitChar_no_sep (sep : Char) (s : List Char) (h : sep ∉ s) :
    splitChar sep s = [s] := by
  induction s with
  | nil => rfl
  | cons c cs ih =>
    simp only [List.mem_cons, not_or] at h
    rw [splitChar, if_neg (fun hc => h.1 hc.symm), ih h.2]

theorem splitChar_append (sep : Char) (s t : List Char) (h : sep ∉ s) :
    splitChar sep (s ++ sep :: t) = s :: splitChar sep t := by
  induction s with
  | nil => simp [splitChar]
  | cons c cs ih =>
    simp only [List.mem_cons, not_or] at h
    rw [List.cons_append, splitChar, if_neg (fun hc => h.1 hc.symm),
      ih h.2]

theorem natChars_mem (n : Nat) :
    ∀ c ∈ natChars n, ∃ d, d < 10 ∧ c = Char.ofNat (48 + d) := by
  induction n using Nat.strong_induction_on with
  | _ n ih =>
    rw [natChars]
    split
    · intro c hc
      simp only [List.mem_singleton] at hc
      exact ⟨n, by omega, hc⟩
    · intro c hc
      rcases List.mem_append.mp hc with h1 | h2
      · exact ih (n / 10) (Nat.div_lt_self (by omega) (by omega)) c h1
      · simp only [List.mem_singleton] at h2
        exact ⟨n % 10, Nat.mod_lt _ (by omega), h2⟩

theorem natChars_ne_nil (n : Nat) : natChars n ≠ [] := by
  rw [natChars]
  split
  · simp
  · simp

theorem digitVal_ofNat (d : Nat) (h : d < 10) :
    digitVal (Char.ofNat (48 + d)) = some d := by
  interval_cases d <;> decide

theorem digit_char_ne (d : Nat) (h : d < 10) :
    Char.ofNat (48 + d) ≠ '_' ∧ Char.ofNat (48 + d) ≠ '-' ∧
      Char.ofNat (48 + d) ≠ '+' := by
  interval_cases d <;> decide

theorem underscore_not_mem_natChars (n : Nat) : '_' ∉ natChars n := by
  intro h
  obtain ⟨d, hd, hcd⟩ := natChars_mem n _ h
  exact absurd hcd.symm (digit_char_ne d hd).1

theorem underscore_not_mem_intChars (n : Int) : '_' ∉ intChars n := by
  rw [intChars]
  split
  · simp only [List.mem_cons, not_or]
    exact ⟨by decide, underscore_not_mem_natChars _⟩
  · exact underscore_not_mem_natChars _

theorem digitsLoop_append (acc : Nat) (l1 l2 : List Char)
    (h : ∀ c ∈ l1, (digitVal c).isSome) :
    digitsLoop acc (l1 ++ l2) = digitsLoop (digitsLoop acc l1) l2 := by
  induction l1 generalizing acc with
  | nil => rfl
  | cons c cs ih =>
    have hc := h c (by simp)
    rcases hd : digitVal c with _ | d
    · rw [hd] at hc
      simp at hc
    · simp only [List.cons_append, digitsLoop, hd]
      exact ih _ fun x hx => h x (by simp [hx])

theorem natChars_all_digits (n : Nat) :
    ∀ c ∈ natChars n, (digitVal c).isSome := by
  intro c hc
  obtain ⟨d, hd, hcd⟩ := natChars_mem n c hc
  rw [hcd, digitVal_ofNat d hd]
  rfl

theorem digitsLoop_natChars (n : Nat) :
    ∀ acc, digitsLoop acc (natChars n) =
      acc * 10 ^ (natChars n).length + n := by
  induction n using Nat.strong_induction_on with
  | _ n ih =>
    intro acc
    by_cases h : n < 10
    · rw [natChars]
      simp only [h, dite_true]
      simp only [digitsLoop, digitVal_ofNat n h, List.length_singleton, pow_one]
    · conv_lhs => rw [natChars]
      conv_rhs => rw [natChars]
      simp only [h, dite_false]
      rw [digitsLoop_append _ _ _ (natChars_all_digits (n / 10))]
      rw [ih (n / 10) (Nat.div_lt_self (by omega) (by omega))]
      have hm10 : n % 10 < 10 := Nat.mod_lt _ (by omega)
      simp only [digitsLoop, digitVal_ofNat (n % 10) hm10]
      rw [List.length_append, List.length_singleton]
      have hdm : n / 10 * 10 + n % 10 = n := by omega
      calc (acc * 10 ^ (natChars (n / 10)).length + n / 10) * 10 + n % 10
          = acc * (10 ^ (natChars (n / 10)).length * 10) +
              (n / 10 * 10 + n % 10) := by ring
        _ = acc * 10 ^ ((natChars (n / 10)).length + 1) + n := by
              rw [hdm, pow_succ]

theorem parseDigits_natChars (n : Nat) : parseDigits (natChars n) = some n := by
  obtain ⟨c, cs, hcc⟩ : ∃ c cs, natChars n = c :: cs := by
    rcases hx : natChars n with _ | ⟨c, cs⟩
    · exact absurd hx (natChars_ne_nil n)
    · exact ⟨c, cs, rfl⟩
  obtain ⟨d, hd10, hcd⟩ := natChars_mem n c (by rw [hcc]; simp)
  have hdv : digitVal c = some d := by rw [hcd]; exact digitVal_ofNat d hd10
  have h0 : digitsLoop 0 (natChars n) = n := by
    rw [digitsLoop_natChars]
    simp
  rw [hcc] at h0 ⊢
  have hred : digitsLoop 0 (c :: cs) = digitsLoop d cs := by
    simp only [digitsLoop, hdv]
    norm_num
  simp only [parseDigits, hdv]
  rw [← hred, h0]

theorem parseIntJS_intChars (n : Int) : parseIntJS (intChars n) = some n := by
  by_cases h : n < 0
  · rw [intChars, if_pos h]
    simp only [parseIntJS, reduceIte]
    rw [parseDigits_natChars]
    simp only [Option.map_some']
    congr 1
    omega
  · rw [intChars, if_neg h]
    obtain ⟨c, cs, hcc⟩ : ∃ c cs, natChars n.toNat = c :: cs := by
      rcases hx : natChars n.toNat with _ | ⟨c, cs⟩
      · exact absurd hx (natChars_ne_nil n.toNat)
      · exact ⟨c, cs, rfl⟩
    obtain ⟨d, hd10, hcd⟩ := natChars_mem n.toNat c (by rw [hcc]; simp)
    have hc1 : c ≠ '-' := by rw [hcd]; exact (digit_char_ne d hd10).2.1
    have hc2 : c ≠ '+' := by rw [hcd]; exact (digit_char_ne d hd10).2.2
    rw [hcc]
    simp only [parseIntJS, if_neg hc1, if_neg hc2]
    rw [← hcc, parseDigits_natChars]
    simp only [Option.map_some']
    congr 1
    omega

/-- C9 counterexample: the claim includes angle = 0 ("angle a multiple of
90"), but `getRotatedBlockId` encodes a zero-angle rotation as the bare id,
so decoding returns no rotation rather than the pair (baseId, rotation):
at baseId "a" and rotation (x, 0) the round trip loses the rotation. -/
theorem parseRotatedBlockId_c9_counterexample :
    parseRotatedBlockId (getRotatedBlockId ['a'] (some ⟨['x'], 0⟩)) ≠
      { baseId := ['a'], rotation := some { axis := ['x'], angle := some 0 } } := by
  decide

/-- C9 amended: for every baseId without the separator, every axis in
{x, y, z} and every nonzero angle, decode(encode(baseId, rotation)) returns
baseId and the rotation; for a zero angle or an absent rotation the encoding
is the bare baseId and decoding returns (baseId, no rotation). -/
theorem parseRotatedBlockId_c9_amended (baseId ax : List Char) (angle : Int)
    (hb : '_' ∉ baseId) (hax : ax = ['x'] ∨ ax = ['y'] ∨ ax = ['z'])
    (hne : angle ≠ 0) :
    parseRotatedBlockId (getRotatedBlockId baseId (some ⟨ax, angle⟩)) =
      { baseId := baseId
        rotation := some { axis := ax, angle := some angle } } ∧
    parseRotatedBlockId (getRotatedBlockId baseId none) =
      { baseId := baseId, rotation := none } := by
  constructor
  · have henc : getRotatedBlockId baseId (some ⟨ax, angle⟩) =
        baseId ++ '_' :: (ax ++ intChars angle) := by
      simp only [getRotatedBlockId, if_neg hne]
    have hrest : '_' ∉ ax ++ intChars angle := by
      simp only [List.mem_append, not_or]
      refine ⟨?_, underscore_not_mem_intChars angle⟩
      rcases hax with h | h | h <;> rw [h] <;> decide
    have hsplit : splitChar '_' (baseId ++ '_' :: (ax ++ intChars angle)) =
        baseId :: [ax ++ intChars angle] := by
      rw [splitChar_append _ _ _ hb, splitChar_no_sep _ _ hrest]
    rw [henc]
    simp only [parseRotatedBlockId, hsplit]
    rcases hax with h | h | h <;> subst h <;>
      simp [parseIntJS_intChars angle]
  · have hsplit : splitChar '_' baseId = [baseId] :=
      splitChar_no_sep _ _ hb
    simp only [getRotatedBlockId, parseRotatedBlockId, hsplit]

/-- C9 amended witness: the round trip at baseId "a", axis x, angle 90 and
the bare round trip at baseId "a". -/
theorem parseRotatedBlockId_c9_amended_witness :
    parseRotatedBlockId (getRotatedBlockId ['a'] (some ⟨['x'], 90⟩)) =
      { baseId := ['a'], rotation := some { axis := ['x'], angle := some 90 } } ∧
    parseRotatedBlockId (getRotatedBlockId ['a'] none) =
      { baseId := ['a'], rotation := none } :=
  parseRotatedBlockId_c9_amended ['a'] ['x'] 90 (by decide) (Or.inl rfl)
    (by decide)

/-- The `directions` array of `precomputeAdjacencies`. -/
def directions : List Direction := [.north, .south, .east, .west]

/-- The string value of a direction literal. -/
def dirChars : Direction → List Char
  | .north => ['n', 'o', 'r', 't', 'h']
  | .south => ['s', 'o', 'u', 't', 'h']
  | .east => ['e', 'a', 's', 't']
  | .west => ['w', 'e', 's', 't']

/-- The inner cache key `` `${direction}:${keyB}` ``. -/
def adjCacheKey (direction : Direction) (keyB : List Char) : List Char :=
  dirChars direction ++ ':' :: keyB

/-- The inner `Map` built for one `blockA` by the two nested loops
`for direction / for blockB` of `precomputeAdjacencies`; the loop pairs are
traversed as `directions.product db`, which lists them in the same nested
order, and each `set` is a function update. -/
def buildInner (db : List BlockConfiguration) (blockA : BlockConfiguration) :
    List Char → Option Bool :=
  (directions.product db).foldl
    (fun m p =>
      Function.update m (adjCacheKey p.1 (getRotatedBlockId p.2.id p.2.rotation))
        (some (canBeAdjacent blockA p.2 p.1)))
    fun _ => none

/-- `WaveFunctionCollapse.precomputeAdjacencies`: the outer loop sets, for
every `blockA`, the key `keyA` to the freshly built inner map. -/
def precomputeAdjacencies (db : List BlockConfiguration) :
    List Char → Option (List Char → Option Bool) :=
  db.foldl
    (fun cache blockA =>
      Function.update cache (getRotatedBlockId blockA.id blockA.rotation)
        (some (buildInner db blockA)))
    fun _ => none

/-- `WaveFunctionCollapse.getOppositeDirection`. -/
def getOppositeDirection : Direction → Direction
  | .north => .south
  | .south => .north
  | .east => .west
  | .west => .east

/-- The `neighbors` array of `getValidBlocks`: offset positions paired with
the direction labelling the neighbor's spatial relation to `position`. -/
def neighborOffsets (position : Int × Int) :
    List ((Int × Int) × Direction) :=
  [((position.1, position.2 - 1), .north),
    ((position.1, position.2 + 1), .south),
    ((position.1 + 1, position.2), .east),
    ((position.1 - 1, position.2), .west)]

/-- The candidate-filtering loop body of `getValidBlocks`: walk the neighbor
list; a present neighbor that rejects the candidate returns false early;
otherwise continue, ending in true. -/
def neighborsOk (placedBlocks : Int × Int → Option BlockConfiguration)
    (candidateBlock : BlockConfiguration) :
    List ((Int × Int) × Direction) → Bool
  | [] => true
  | n :: rest =>
    match placedBlocks n.1 with
    | some neighborBlock =>
      if canBeAdjacent neighborBlock candidateBlock (getOppositeDirection n.2) then
        neighborsOk placedBlocks candidateBlock rest
      else false
    | none => neighborsOk placedBlocks candidateBlock rest

/-- `WaveFunctionCollapse.getValidBlocks`: keep the candidates compatible
with every placed cardinal neighbor.  `placedBlocks` (a `Map` keyed by the
string `` `${x},${y}` ``, an injective image of the coordinate pair) is
embedded as a function from coordinates. -/
def getValidBlocks (position : Int × Int)
    (placedBlocks : Int × Int → Option BlockConfiguration)
    (allPossibleBlocks : List BlockConfiguration) : List BlockConfiguration :=
  allPossibleBlocks.filter fun candidateBlock =>
    neighborsOk placedBlocks candidateBlock (neighborOffsets position)

theorem foldl_update_lookup {α κ β : Type _} [DecidableEq κ] (f : α → κ)
    (g : α → β) (l : List α) (init : κ → Option β) (k : κ) (v : β)
    (hval : ∀ a ∈ l, f a = k → g a = v)
    (hmem : k ∈ l.map f ∨ init k = some v) :
    l.foldl (fun m a => Function.update m (f a) (some (g a))) init k =
      some v := by
  induction l generalizing init with
  | nil =>
    rcases hmem with h | h
    · simp at h
    · simpa using h
  | cons a t ih =>
    simp only [List.foldl_cons]
    apply ih
    · exact fun b hb hbk => hval b (List.mem_cons_of_mem _ hb) hbk
    · by_cases hk : k = f a
      · right
        rw [Function.update_apply, if_pos hk]
        exact congrArg some (hval a (by simp) hk.symm)
      · rcases hmem with h | h
        · simp only [List.map_cons, List.mem_cons] at h
          rcases h with h | h
          · exact absurd h hk
          · exact Or.inl h
        · right
          rw [Function.update_apply, if_neg hk]
          exact h

theorem adjCacheKey_inj {d1 d2 : Direction} {k1 k2 : List Char}
    (h : adjCacheKey d1 k1 = adjCacheKey d2 k2) : d1 = d2 ∧ k1 = k2 := by
  cases d1 <;> cases d2 <;> simp_all [adjCacheKey, dirChars]

/-- C8: after cache construction over a catalog with pairwise-distinct
composite keys, the cache holds, for every ordered pair of catalog entries
and every direction, the stored boolean `canBeAdjacent(A, B, d)` under the
outer key of A and the inner key `direction:keyB`. -/
theorem precomputeAdjacencies_c8 (db : List BlockConfiguration)
    (hkeys : (db.map fun b => getRotatedBlockId b.id b.rotation).Nodup)
    (blockA : BlockConfiguration) (hA : blockA ∈ db)
    (blockB : BlockConfiguration) (hB : blockB ∈ db) (d : Direction) :
    ∃ inner,
      precomputeAdjacencies db (getRotatedBlockId blockA.id blockA.rotation) =
        some inner ∧
      inner (adjCacheKey d (getRotatedBlockId blockB.id blockB.rotation)) =
        some (canBeAdjacent blockA blockB d) := by
  have hinj := List.inj_on_of_nodup_map hkeys
  refine ⟨buildInner db blockA, ?_, ?_⟩
  · apply foldl_update_lookup (fun b => getRotatedBlockId b.id b.rotation)
      (buildInner db) db (fun _ => none) _ _
    · intro b hb hbk
      rw [hinj hb hA hbk]
    · exact Or.inl (List.mem_map_of_mem _ hA)
  · apply foldl_update_lookup
      (fun p => adjCacheKey p.1 (getRotatedBlockId p.2.id p.2.rotation))
      (fun p => canBeAdjacent blockA p.2 p.1)
      (directions.product db) (fun _ => none) _ _
    · rintro ⟨pd, pb⟩ hp hpk
      obtain ⟨hd, hk⟩ := adjCacheKey_inj hpk
      have hpb : pb = blockB := hinj (List.pair_mem_product.mp hp).2 hB hk
      rw [hd, hpb]
    · refine Or.inl ?_
      have hmm : ((d, blockB) : Direction × BlockConfiguration) ∈
          directions.product db :=
        List.pair_mem_product.mpr ⟨by cases d <;> simp [directions], hB⟩
      exact List.mem_map_of_mem _ hmm

/-- C8 witness: a two-entry catalog of unrotated uniform-5 blocks; the cache
answers true for the pair (a, b) in direction north. -/
theorem precomputeAdjacencies_c8_witness :
    ∃ inner,
      precomputeAdjacencies
        [⟨['a'], [5, 5, 5, 5, 5, 5, 5, 5, 5], none⟩,
          ⟨['b'], [5, 5, 5, 5, 5, 5, 5, 5, 5], none⟩] ['a'] = some inner ∧
      inner (adjCacheKey .north ['b']) = some true := by
  obtain ⟨inner, h1, h2⟩ :=
    precomputeAdjacencies_c8
      [⟨['a'], [5, 5, 5, 5, 5, 5, 5, 5, 5], none⟩,
        ⟨['b'], [5, 5, 5, 5, 5, 5, 5, 5, 5], none⟩]
      (by decide)
      ⟨['a'], [5, 5, 5, 5, 5, 5, 5, 5, 5], none⟩ (by decide)
      ⟨['b'], [5, 5, 5, 5, 5, 5, 5, 5, 5], none⟩ (by decide) .north
  exact ⟨inner, h1, h2.trans (by decide)⟩

theorem neighborsOk_iff (placedBlocks : Int × Int → Option BlockConfiguration)
    (c : BlockConfiguration) (position : Int × Int) :
    neighborsOk placedBlocks c (neighborOffsets position) = true ↔
      ((∀ nb, placedBlocks (position.1, position.2 - 1) = some nb →
          canBeAdjacent nb c .south = true) ∧
        (∀ nb, placedBlocks (position.1, position.2 + 1) = some nb →
          canBeAdjacent nb c .north = true) ∧
        (∀ nb, placedBlocks (position.1 + 1, position.2) = some nb →
          canBeAdjacent nb c .west = true) ∧
        (∀ nb, placedBlocks (position.1 - 1, position.2) = some nb →
          canBeAdjacent nb c .east = true)) := by
  rcases h1 : placedBlocks (position.1, position.2 - 1) with _ | nb1 <;>
    rcases h2 : placedBlocks (position.1, position.2 + 1) with _ | nb2 <;>
      rcases h3 : placedBlocks (position.1 + 1, position.2) with _ | nb3 <;>
        rcases h4 : placedBlocks (position.1 - 1, position.2) with _ | nb4 <;>
          simp [neighborOffsets, neighborsOk, getOppositeDirection,
            h1, h2, h3, h4]

/-- C3: `getValidBlocks` returns exactly the candidates accepted by every
placed cardinal neighbor (the neighbor on each side checks the candidate on
the side facing back, via `getOppositeDirection`), in input order (the
result is a sublist of the candidate list), and when no cardinal neighbor is
present every candidate is returned. -/
theorem getValidBlocks_c3 (position : Int × Int)
    (placedBlocks : Int × Int → Option BlockConfiguration)
    (allPossibleBlocks : List BlockConfiguration) :
    (∀ c, c ∈ getValidBlocks position placedBlocks allPossibleBlocks ↔
      c ∈ allPossibleBlocks ∧
      (∀ nb, placedBlocks (position.1, position.2 - 1) = some nb →
        canBeAdjacent nb c .south = true) ∧
      (∀ nb, placedBlocks (position.1, position.2 + 1) = some nb →
        canBeAdjacent nb c .north = true) ∧
      (∀ nb, placedBlocks (position.1 + 1, position.2) = some nb →
        canBeAdjacent nb c .west = true) ∧
      (∀ nb, placedBlocks (position.1 - 1, position.2) = some nb →
        canBeAdjacent nb c .east = true)) ∧
    (getValidBlocks position placedBlocks allPossibleBlocks).Sublist
      allPossibleBlocks ∧
    ((placedBlocks (position.1, position.2 - 1) = none ∧
      placedBlocks (position.1, position.2 + 1) = none ∧
      placedBlocks (position.1 + 1, position.2) = none ∧
      placedBlocks (position.1 - 1, position.2) = none) →
      getValidBlocks position placedBlocks allPossibleBlocks =
        allPossibleBlocks) := by
  refine ⟨fun c => ?_, List.filter_sublist _, fun hnone => ?_⟩
  · rw [getValidBlocks, List.mem_filter, neighborsOk_iff]
  · rw [getValidBlocks]
    apply List.filter_eq_self.mpr
    intro a _
    rw [neighborsOk_iff]
    obtain ⟨h1, h2, h3, h4⟩ := hnone
    refine ⟨?_, ?_, ?_, ?_⟩ <;> intro nb h
    · rw [h1] at h; exact absurd h (by simp)
    · rw [h2] at h; exact absurd h (by simp)
    · rw [h3] at h; exact absurd h (by simp)
    · rw [h4] at h; exact absurd h (by simp)

/-- C3 witness: with no placed neighbors around (0,0), the single candidate
passes trivially. -/
theorem getValidBlocks_c3_witness :
    getValidBlocks (0, 0) (fun _ => none)
      [⟨['a'], [5, 5, 5, 5, 5, 5, 5, 5, 5], none⟩] =
      [⟨['a'], [5, 5, 5, 5, 5, 5, 5, 5, 5], none⟩] :=
  (getValidBlocks_c3 (0, 0) (fun _ => none)
    [⟨['a'], [5, 5, 5, 5, 5, 5, 5, 5, 5], none⟩]).2.2 ⟨rfl, rfl, rfl, rfl⟩

/-- C1 witness: the equivalence applied at two uniform-5 blocks in direction
north, whose edges agree pointwise. -/
theorem canBeAdjacent_c1_witness :
    canBeAdjacent ⟨['a'], [5, 5, 5, 5, 5, 5, 5, 5, 5], none⟩
      ⟨['b'], [5, 5, 5, 5, 5, 5, 5, 5, 5], none⟩ .north = true :=
  ((canBeAdjacent_c1.1 ⟨['a'], [5, 5, 5, 5, 5, 5, 5, 5, 5], none⟩
      ⟨['b'], [5, 5, 5, 5, 5, 5, 5, 5, 5], none⟩).1).mpr
    ⟨rfl, fun _ _ _ => rfl⟩
